import Mathlib

/-!
Verification of the climate-report crawler (src/crawler.py) against its
specification.  The pipeline is shallowly embedded: external collaborators
(HTTP fetch, SHA-256, the PDF parser, the HTML text extractor, the sentence
embedding model, textwrap.shorten) are fields of an `Env` record of pure
functions; everything the script itself computes is translated directly.
Bytes are `List Nat`, vectors are `List Rat` (the embedding model is opaque,
so exact float semantics are never needed by any claim).
-/

/-- Configuration values read from config.yaml (the yaml file is not part of
the repository, so the thresholds and window parameters are parameters of the
model): `min_year`, `min_pages`, `window_tokens`, `window_stride`. -/
structure Config where
  minYear : Nat
  minPages : Nat
  win : Nat
  stride : Nat
deriving DecidableEq

/-- Result of `PdfReader` on the fetched bytes: either the parsed list of
per-page texts (`page.extract_text() or ""` collapses a missing text to the
empty string, so a page is just a `String`), or a parse failure carrying the
raised exception's class name (`err.__class__.__name__`). -/
inductive Pdf where
  | ok (pages : List String)
  | bad (cause : String)
deriving DecidableEq

/-- External collaborators of the crawl, each a pure deterministic function
(the spec assumes the embedding model is deterministic; a fetch is a single
attempt whose any exception is caught inside `fetch`, hence `Option`).
`encode` models `model.encode` applied to the list of chunk strings; it can
raise (`Except.error`), which matters because the call site is unguarded.
`shorten` models `textwrap.shorten(text, 1000)`. -/
structure Env where
  fetch : String → Option (List Nat)
  sha : List Nat → String
  parsePdf : List Nat → Pdf
  extractHtml : List Nat → String
  encode : List String → Except String (List (List Rat))
  shorten : String → String

/-- `str.endswith(suf)`: the character suffix test used by the format
dispatch `url.endswith(".pdf")`. -/
def pyEndsWith (s suf : String) : Bool :=
  s.toList.drop (s.toList.length - suf.toList.length) == suf.toList

/-- Accumulating scanner behind `pySplit`: `cur` holds the reversed
characters of the word being read. -/
def pyWordsAux : List Char → List Char → List String
  | [], cur => if cur = [] then [] else [String.mk cur.reverse]
  | c :: rest, cur =>
      if c.isWhitespace then
        if cur = [] then pyWordsAux rest []
        else String.mk cur.reverse :: pyWordsAux rest []
      else pyWordsAux rest (c :: cur)

/-- `text.split()`: split on whitespace runs, dropping empty pieces. -/
def pySplit (s : String) : List String :=
  pyWordsAux s.toList []

/-- `range(0, n, s)` as a list: `[0, s, 2*s, ...]`, `ceil(n / s)` elements. -/
def pyRange (n s : Nat) : List Nat :=
  (List.range ((n + s - 1) / s)).map (fun k => k * s)

/-- `words[i : i + w]`. -/
def window (ws : List String) (i w : Nat) : List String :=
  (ws.drop i).take w

/-- The chunk windows produced by `chunks`: iterate `i` over
`range(0, len(words), stride)`, slice `words[i : i + w]`, and `break` as soon
as a slice is shorter than 100 tokens (hence `takeWhile`). -/
def chunkList (ws : List String) (w s : Nat) : List (List String) :=
  ((pyRange ws.length s).takeWhile (fun i => 100 ≤ (window ws i w).length)).map
    (fun i => window ws i w)

/-- `chunks(words, w, s)`: each surviving window is yielded as
`" ".join(chunk)`. -/
def chunks (ws : List String) (w s : Nat) : List String :=
  (chunkList ws w s).map (fun c => String.intercalate " " c)

/-- `extract_pdf(b, pages)`: on a parsed document, join the texts of the
first `pages` pages with newlines and return the total page count of the
whole document; on any parse failure re-raise
`ValueError(f"Unreadable PDF ({err.__class__.__name__})")`.  The Python
default for `pages` is 5 and the call site uses that default. -/
def extract_pdf (p : Pdf) (pages : Nat) : Except String (String × Nat) :=
  match p with
  | .ok pgs => .ok (String.intercalate "\n" (pgs.take pages), pgs.length)
  | .bad c => .error ("Unreadable PDF (" ++ c ++ ")")

/-- Page-count estimate for a non-PDF candidate:
`len(text.split()) // 500` (integer floor division). -/
def htmlPages (t : String) : Nat :=
  (pySplit t).length / 500

/-- True when the four characters at the head of the list match the regex
`(19|20)\d\x7b2\x7d` (a 4-digit year token starting 19 or 20). -/
def isYearStart : List Char → Bool
  | c0 :: c1 :: c2 :: c3 :: _ =>
      ((c0 == '1' && c1 == '9') || (c0 == '2' && c1 == '0')) &&
        c2.isDigit && c3.isDigit
  | _ => false

/-- Numeric value of the 4-digit year at the head of the list. -/
def yearNumAt : List Char → Nat
  | c0 :: c1 :: c2 :: c3 :: _ =>
      (c0.toNat - 48) * 1000 + (c1.toNat - 48) * 100 +
        (c2.toNat - 48) * 10 + (c3.toNat - 48)
  | _ => 0

/-- `re.search` for the year pattern: left-to-right scan, first match wins. -/
def findYear : List Char → Option Nat
  | [] => none
  | c :: rest =>
      if isYearStart (c :: rest) then some (yearNumAt (c :: rest))
      else findYear rest

/-- Year assigned to a candidate: first year token in
`text[:4000] + url`, else the sentinel 1900. -/
def yearOf (text url : String) : Nat :=
  (findYear ((text.toList.take 4000) ++ url.toList)).getD 1900

/-- The two admission threshold tests of the main loop, merged:
`if pages < MIN_PAGES: continue` and `if year < MIN_YEAR: continue`
(the year computation between them is pure, so merging is behaviorally
identical). -/
def gateAdmit (minPages minYear pages year : Nat) : Bool :=
  !(decide (pages < minPages)) && !(decide (year < minYear))

/-- Splitting a character list at every slash (`url.split("/")`). -/
def splitSlashAux : List Char → List Char → List String
  | [], cur => [String.mk cur.reverse]
  | c :: rest, cur =>
      if c = '/' then String.mk cur.reverse :: splitSlashAux rest []
      else splitSlashAux rest (c :: cur)

/-- `Path(url).name`: last nonempty path segment (model of pathlib). -/
def pyPathName (s : String) : String :=
  (((splitSlashAux s.toList []).filter (fun p => p ≠ "")).getLast?).getD ""

/-- `Path(url).name.replace("_", " ")[:120]`. -/
def pyTitle (url : String) : String :=
  String.mk (((pyPathName url).toList.map
    (fun c => if c = '_' then ' ' else c)).take 120)

/-- Elementwise sum of two vectors. -/
def vsum (a b : List Rat) : List Rat :=
  List.zipWith (fun x y => x + y) a b

/-- `vecs.mean(axis=0)` for a nonempty list of rows; the empty case is a
junk value (NumPy would yield NaN there — no claim depends on it). -/
def meanVecs (vs : List (List Rat)) : List Rat :=
  match vs with
  | [] => []
  | v :: rest => (rest.foldl vsum v).map (fun x => x / ((rest.length + 1 : Nat) : Rat))

/-- `float(vec.mean())` of a vector (0 for the empty vector). -/
def meanQ (v : List Rat) : Rat :=
  (v.foldl (fun a b => a + b) 0) / ((v.length : Nat) : Rat)

/-- One persisted record (`rec` dictionary of the main loop), fields in the
dictionary's insertion order. -/
structure Rec where
  title : String
  year : Nat
  pages : Nat
  url : String
  sha : String
  score : Rat
  summary : String
deriving DecidableEq

/-- One CSV row of a record: the `DictWriter` projection of its fields in
the fixed key order of the record dictionary. -/
def recToRow (r : Rec) : List String :=
  [r.title, toString r.year, toString r.pages, r.url, r.sha,
    toString r.score, r.summary]

/-- Building the `rec` dictionary at the end of a fully processed candidate:
`vec = embed(text)` is the mean of the per-window vectors, the score is
`float(vec.mean())`, the summary is `textwrap.shorten(text, 1000)`. -/
def mkRec (env : Env) (url dig text : String) (pages year : Nat)
    (vecs : List (List Rat)) : Rec :=
  { title := pyTitle url, year := year, pages := pages, url := url,
    sha := dig, score := meanQ (meanVecs vecs), summary := env.shorten text }

/-- Python dict insertion `m[k] = v`: overwrite in place if the key exists,
else append. -/
def dictInsert (m : List (String × Rec)) (k : String) (v : Rec) :
    List (String × Rec) :=
  if m.any (fun p => p.1 == k) then
    m.map (fun p => if p.1 == k then (k, v) else p)
  else m ++ [(k, v)]

/-- `{r["sha"]: r for r in json.load(...)}`: the loaded store as an ordered
association list keyed by content hash. -/
def loadStore (recs : List Rec) : List (String × Rec) :=
  recs.foldl (fun m r => dictInsert m r.sha r) []

/-- Keys of the loaded store (the known-hash set used by the dedup check). -/
def storeKeys (recs : List Rec) : List String :=
  (loadStore recs).map (fun p => p.1)

/-- `list(existing.values())` in insertion order. -/
def storeVals (recs : List Rec) : List Rec :=
  (loadStore recs).map (fun p => p.2)

/-- The extraction stage of the loop body: format dispatch on
`url.endswith(".pdf")`; a PDF parse failure (the raised `ValueError`) is
caught by the `try/except` around `extract_pdf` and skips the candidate
(`none`); a non-PDF goes through `extract_html` with the page estimate
`len(text.split()) // 500`. -/
def extractStep (env : Env) (url : String) (raw : List Nat) :
    Option (String × Nat) :=
  if pyEndsWith url ".pdf" then
    match extract_pdf (env.parsePdf raw) 5 with
    | .ok tp => some tp
    | .error _ => none
  else
    some (env.extractHtml raw, htmlPages (env.extractHtml raw))

/-- The loop body after the dedup check, when the hash is fresh: the
extraction stage, then the page and year gates, then the embedding call,
whose failure is NOT caught at the call site (`vec = embed(text)` sits
outside any try/except), so an `Except.error` from `encode` propagates. -/
def processFresh (cfg : Config) (env : Env) (url : String) (raw : List Nat) :
    Except String (Option Rec) :=
  match extractStep env url raw with
  | none => .ok none
  | some (text, pages) =>
    if gateAdmit cfg.minPages cfg.minYear pages (yearOf text url) then
      match env.encode (chunks (pySplit text) cfg.win cfg.stride) with
      | .error e => .error e
      | .ok vecs =>
          .ok (some (mkRec env url (env.sha raw) text pages (yearOf text url) vecs))
    else .ok none

/-- One iteration of the main loop for one locator: a failed or empty fetch
(`if not raw`) skips; then `dig = sha(raw)`; a hash already in the loaded
store skips (`if dig in existing`); otherwise the fresh-candidate body runs.
`known` is the key set of the loaded store — the loop never extends it. -/
def processUrl (cfg : Config) (env : Env) (known : List String)
    (url : String) : Except String (Option Rec) :=
  match env.fetch url with
  | none => .ok none
  | some raw =>
    if raw = [] then .ok none
    else if env.sha raw ∈ known then .ok none
    else processFresh cfg env url raw

/-- The whole `for url in links` loop, accumulating `new` in discovery
order; an uncaught exception in an iteration aborts the remainder. -/
def processAll (cfg : Config) (env : Env) (known : List String) :
    List String → Except String (List Rec)
  | [] => .ok []
  | url :: rest =>
    match processUrl cfg env known url with
    | .error e => .error e
    | .ok none => processAll cfg env known rest
    | .ok (some r) =>
      match processAll cfg env known rest with
      | .error e => .error e
      | .ok rs => .ok (r :: rs)

/-- Outcome of one run: the admitted batch `new`, what was persisted
(`None` when no write happened; otherwise the JSON record list and the CSV
rows, both derived from `allrecs`), and whether the reviewer digest was
sent. -/
structure RunResult where
  newRecs : List Rec
  persisted : Option (List Rec × List (List String))
  notified : Bool
deriving DecidableEq

/-- The main crawl: load the store, process every discovered locator, and
persist plus notify only when `new` is nonempty (`if new:`); with an empty
batch the run ends normally having written and sent nothing.  When a write
happens, `allrecs = list(existing.values()) + new` is serialized both as
JSON and as CSV rows. -/
def runCrawl (cfg : Config) (env : Env) (storeFile : List Rec)
    (links : List String) : Except String RunResult :=
  match processAll cfg env (storeKeys storeFile) links with
  | .error e => .error e
  | .ok rs =>
    if rs.isEmpty then .ok ⟨[], none, false⟩
    else
      let allrecs := storeVals storeFile ++ rs
      .ok ⟨rs, some (allrecs, allrecs.map recToRow), true⟩

/-- Contents of the durable JSON file after a run: replaced by the written
record list when a persist happened, unchanged otherwise. -/
def storeAfter (storeFile : List Rec) (res : RunResult) : List Rec :=
  match res.persisted with
  | some jc => jc.1
  | none => storeFile

/-- The content hashes the loop computes in one run (`dig = sha(raw)` runs
for every locator whose fetch returns nonempty bytes, regardless of the
store). -/
def hashesComputed (env : Env) (links : List String) : List String :=
  links.filterMap (fun u =>
    match env.fetch u with
    | none => none
    | some raw => if raw = [] then none else some (env.sha raw))

/-! ### Concrete instances used to evaluate the model on closed inputs -/

/-- Permissive thresholds: `min_year = 0`, `min_pages = 1`, window 1,
stride 1. -/
def cfgW : Config := ⟨0, 1, 1, 1⟩

/-- Strict page threshold `min_pages = 5`, otherwise like `cfgW`. -/
def cfgX : Config := ⟨0, 5, 1, 1⟩

/-- Every fetch returns the byte string `[1]`, hashing to `"h"`; the PDF
parser sees a readable one-page document; the embedding model returns one
vector `[1]`. -/
def envW : Env :=
  { fetch := fun _ => some [1], sha := fun _ => "h",
    parsePdf := fun _ => Pdf.ok ["r"], extractHtml := fun _ => "",
    encode := fun _ => .ok [[1]], shorten := fun _ => "" }

/-- Like `envW` but the embedding model raises on every call. -/
def envB : Env :=
  { fetch := fun _ => some [1], sha := fun _ => "h",
    parsePdf := fun _ => Pdf.ok ["r"], extractHtml := fun _ => "",
    encode := fun _ => .error "boom", shorten := fun _ => "" }

/-- Like `envW` but every fetch fails. -/
def envN : Env :=
  { fetch := fun _ => none, sha := fun _ => "h",
    parsePdf := fun _ => Pdf.ok ["r"], extractHtml := fun _ => "",
    encode := fun _ => .ok [[1]], shorten := fun _ => "" }

/-- Like `envW` but the PDF parser raises an exception of class `"X"`. -/
def envC : Env :=
  { fetch := fun _ => some [1], sha := fun _ => "h",
    parsePdf := fun _ => Pdf.bad "X", extractHtml := fun _ => "",
    encode := fun _ => .ok [[1]], shorten := fun _ => "" }

/-- Like `envW` but the HTML extractor returns a three-word text. -/
def envH : Env :=
  { fetch := fun _ => some [1], sha := fun _ => "h",
    parsePdf := fun _ => Pdf.ok ["r"], extractHtml := fun _ => "w1 w2 w3",
    encode := fun _ => .ok [[1]], shorten := fun _ => "" }

/-- The record `envW` admits for locator `"a.pdf"` against permissive
thresholds. -/
def rec0W : Rec :=
  ⟨"a.pdf", 1900, 1, "a.pdf", "h", meanQ (meanVecs [[1]]), ""⟩

/-- The run result of `envW` on the single locator `"a.pdf"` over an empty
store. -/
def resW : RunResult := ⟨[rec0W], some ([rec0W], [recToRow rec0W]), true⟩

/-- A store record with content hash `"g"`. -/
def recG : Rec := ⟨"g.pdf", 1900, 1, "g.pdf", "g", 0, ""⟩

/-- A store record with content hash `"h"` (the hash `envW` computes). -/
def recH : Rec := ⟨"h.pdf", 1900, 1, "h.pdf", "h", 0, ""⟩

/-- The run result of `envW` on `["a.pdf"]` over the store `[recG]`. -/
def resWG : RunResult :=
  ⟨[rec0W], some ([recG, rec0W], [recToRow recG, recToRow rec0W]), true⟩

deriving instance DecidableEq for Except

/-! ### Lemmas about the chunker -/

theorem length_window (ws : List String) (i w : Nat) :
    (window ws i w).length = min w (ws.length - i) := by
  simp [window]

theorem pyRange_zero (s : Nat) : pyRange 0 s = [] := by
  have h : (0 + s - 1) / s = 0 := by
    rcases Nat.eq_zero_or_pos s with h | h
    · simp [h]
    · exact Nat.div_eq_of_lt (by omega)
  unfold pyRange
  rw [h]
  simp

theorem pyRange_cons (n s : Nat) (hs : 1 ≤ s) (hn : 1 ≤ n) :
    pyRange n s = 0 :: (pyRange (n - s) s).map (fun i => i + s) := by
  unfold pyRange
  have h1 : (n + s - 1) / s = (n - 1) / s + 1 := by
    have e : n + s - 1 = (n - 1) + s := by omega
    rw [e, Nat.add_div_right _ (by omega)]
  have h2 : (n - s + s - 1) / s = (n - 1) / s := by
    rcases Nat.le_total s n with h | h
    · have e : n - s + s - 1 = n - 1 := by omega
      rw [e]
    · have e : n - s = 0 := by omega
      rw [e]
      have e2 : 0 + s - 1 = s - 1 := by omega
      rw [e2, Nat.div_eq_of_lt (by omega), Nat.div_eq_of_lt (by omega)]
  rw [h1, h2, List.range_succ_eq_map]
  simp only [List.map_cons, List.map_map, Nat.zero_mul]
  refine congrArg (List.cons 0) (List.map_congr_left ?_)
  intro k _
  simp [Function.comp, Nat.succ_mul]

theorem length_chunks (ws : List String) (w s : Nat) :
    (chunks ws w s).length =
      ((pyRange ws.length s).takeWhile
        (fun i => 100 ≤ (window ws i w).length)).length := by
  simp [chunks, chunkList]

/-- C4 (amended): with stride `s ≥ 1`, `s ≤ w`, window `w ≥ 100` and the
narrow-window condition `w - s < 100` (equivalently `w < s + 100`, which
makes every trailing slice shorter than 100 tokens), text of exactly `w`
tokens yields exactly one window, text of exactly `w + s` tokens yields
exactly two, and text of fewer than 100 tokens yields zero windows. -/
theorem chunks_window_counts
    (w s : Nat) (ws1 ws2 ws0 : List String)
    (hs : 1 ≤ s) (hsw : s ≤ w) (hw : 100 ≤ w) (hnar : w < s + 100)
    (h1 : ws1.length = w) (h2 : ws2.length = w + s) (h0 : ws0.length < 100) :
    (chunks ws1 w s).length = 1 ∧ (chunks ws2 w s).length = 2 ∧
      chunks ws0 w s = [] := by
  refine ⟨?_, ?_, ?_⟩
  · rw [length_chunks, h1, pyRange_cons w s hs (by omega)]
    have hp0 : (100 ≤ (window ws1 0 w).length) := by
      rw [length_window, h1]; omega
    rcases le_or_lt w s with hcase | hcase
    · have hz : w - s = 0 := by omega
      rw [hz, pyRange_zero]
      rw [List.map_nil, List.takeWhile_cons_of_pos (by simpa using hp0)]
      simp
    · rw [pyRange_cons (w - s) s hs (by omega)]
      simp only [List.map_cons, Nat.zero_add]
      have hps : ¬ (100 ≤ (window ws1 s w).length) := by
        rw [length_window, h1]; omega
      rw [List.takeWhile_cons_of_pos (by simpa using hp0),
          List.takeWhile_cons_of_neg (by simpa using hps)]
      simp
  · rw [length_chunks, h2, pyRange_cons (w + s) s hs (by omega)]
    have e1 : w + s - s = w := by omega
    rw [e1, pyRange_cons w s hs (by omega)]
    simp only [List.map_cons, Nat.zero_add]
    have hp0 : (100 ≤ (window ws2 0 w).length) := by
      rw [length_window, h2]; omega
    have hp1 : (100 ≤ (window ws2 s w).length) := by
      rw [length_window, h2]; omega
    rw [List.takeWhile_cons_of_pos (by simpa using hp0),
        List.takeWhile_cons_of_pos (by simpa using hp1)]
    rcases le_or_lt w s with hcase | hcase
    · have hz : w - s = 0 := by omega
      rw [hz, pyRange_zero]
      simp
    · rw [pyRange_cons (w - s) s hs (by omega)]
      simp only [List.map_cons, Nat.zero_add]
      have hp2 : ¬ (100 ≤ (window ws2 (s + s) w).length) := by
        rw [length_window, h2]; omega
      rw [List.takeWhile_cons_of_neg (by simpa using hp2)]
      simp
  · rcases Nat.eq_zero_or_pos ws0.length with hz | hpos
    · unfold chunks chunkList
      rw [hz, pyRange_zero]
      simp
    · unfold chunks chunkList
      rw [pyRange_cons ws0.length s hs hpos]
      have hp : ¬ (100 ≤ (window ws0 0 w).length) := by
        rw [length_window]; omega
      rw [List.takeWhile_cons_of_neg (by simpa using hp)]
      simp

set_option maxRecDepth 10000 in
/-- C4 (counterexample): with window `w = 101` and stride `s = 1`
(a legal configuration: `s ≤ w`), whitespace-tokenized text of exactly
`w` tokens produces TWO windows, not exactly one as claimed — the second
slice `words[1:102]` still has 100 tokens, so it is emitted before the
break fires. -/
theorem chunks_one_window_cex :
    (chunks (List.replicate 101 "x") 101 1).length = 2 := by decide

/-- C4 (witness): the amended count theorem applied at `w = 100`, `s = 1`
on concrete token lists of lengths 100, 101 and 99. -/
theorem chunks_window_counts_w :
    (chunks (List.replicate 100 "x") 100 1).length = 1 ∧
      (chunks (List.replicate 101 "x") 100 1).length = 2 ∧
      chunks (List.replicate 99 "x") 100 1 = [] :=
  chunks_window_counts 100 1 (List.replicate 100 "x") (List.replicate 101 "x")
    (List.replicate 99 "x") (by decide) (by decide) (by decide) (by decide)
    (by simp) (by simp) (by simp)

/-! ### Lemmas about candidate processing -/

theorem processFresh_ok_some (cfg : Config) (env : Env) (u : String)
    (raw : List Nat) (r : Rec) (h : processFresh cfg env u raw = .ok (some r)) :
    r.sha = env.sha raw := by
  unfold processFresh at h
  cases hext : extractStep env u raw with
  | none => rw [hext] at h; exact absurd h (by simp)
  | some tp =>
    rw [hext] at h
    obtain ⟨text, pages⟩ := tp
    dsimp only at h
    by_cases hg : gateAdmit cfg.minPages cfg.minYear pages (yearOf text u) = true
    · rw [if_pos hg] at h
      cases henc : env.encode (chunks (pySplit text) cfg.win cfg.stride) with
      | error e => rw [henc] at h; exact absurd h (by simp)
      | ok vecs =>
        rw [henc] at h
        simp only [Except.ok.injEq, Option.some.injEq] at h
        rw [← h]
        rfl
    · rw [if_neg hg] at h
      exact absurd h (by simp)

theorem processUrl_ok_some (cfg : Config) (env : Env) (k : List String)
    (u : String) (r : Rec) (h : processUrl cfg env k u = .ok (some r)) :
    r.sha ∉ k := by
  unfold processUrl at h
  cases hf : env.fetch u with
  | none => rw [hf] at h; exact absurd h (by simp)
  | some raw =>
    rw [hf] at h
    dsimp only at h
    by_cases hraw : raw = []
    · rw [if_pos hraw] at h; exact absurd h (by simp)
    · rw [if_neg hraw] at h
      by_cases hmem : env.sha raw ∈ k
      · rw [if_pos hmem] at h; exact absurd h (by simp)
      · rw [if_neg hmem] at h
        have hs := processFresh_ok_some cfg env u raw r h
        rw [hs]
        exact hmem

theorem processUrl_skip_mono (cfg : Config) (env : Env) (u : String)
    (k k2 : List String) (o : Option Rec)
    (h : processUrl cfg env k u = .ok o) (hsub : k ⊆ k2)
    (ho : ∀ r, o = some r → r.sha ∈ k2) :
    processUrl cfg env k2 u = .ok none := by
  unfold processUrl at h ⊢
  cases hf : env.fetch u with
  | none => rfl
  | some raw =>
    rw [hf] at h
    dsimp only at h ⊢
    by_cases hraw : raw = []
    · rw [if_pos hraw]
    · rw [if_neg hraw] at h ⊢
      by_cases hm2 : env.sha raw ∈ k2
      · rw [if_pos hm2]
      · rw [if_neg hm2]
        have hm1 : env.sha raw ∉ k := fun hx => hm2 (hsub hx)
        rw [if_neg hm1] at h
        cases o with
        | none => exact h
        | some r =>
          have hs := processFresh_ok_some cfg env u raw r h
          have hmem : env.sha raw ∈ k2 := by rw [← hs]; exact ho r rfl
          exact absurd hmem hm2

theorem processAll_cons_none (cfg : Config) (env : Env) (k : List String)
    (u : String) (rest : List String)
    (h : processUrl cfg env k u = .ok none) :
    processAll cfg env k (u :: rest) = processAll cfg env k rest := by
  show (match processUrl cfg env k u with
    | .error e => (.error e : Except String (List Rec))
    | .ok none => processAll cfg env k rest
    | .ok (some r) =>
      match processAll cfg env k rest with
      | .error e => .error e
      | .ok rs => .ok (r :: rs)) = processAll cfg env k rest
  rw [h]

theorem processAll_cons_error (cfg : Config) (env : Env) (k : List String)
    (u : String) (rest : List String) (e : String)
    (h : processUrl cfg env k u = .error e) :
    processAll cfg env k (u :: rest) = .error e := by
  show (match processUrl cfg env k u with
    | .error e => (.error e : Except String (List Rec))
    | .ok none => processAll cfg env k rest
    | .ok (some r) =>
      match processAll cfg env k rest with
      | .error e => .error e
      | .ok rs => .ok (r :: rs)) = .error e
  rw [h]

theorem processAll_nil_of (cfg : Config) (env : Env) (k : List String)
    (links : List String)
    (h : ∀ u ∈ links, processUrl cfg env k u = .ok none) :
    processAll cfg env k links = .ok [] := by
  induction links with
  | nil => rfl
  | cons a t ih =>
    unfold processAll
    rw [h a (by simp)]
    exact ih (fun u hu => h u (by simp [hu]))

theorem processAll_mem (cfg : Config) (env : Env) (k : List String) :
    ∀ (links : List String) (rs : List Rec),
      processAll cfg env k links = .ok rs → ∀ u ∈ links,
        ∃ o, processUrl cfg env k u = .ok o ∧ ∀ r, o = some r → r ∈ rs := by
  intro links
  induction links with
  | nil =>
    intro rs h u hu
    exact absurd hu (by simp)
  | cons a t ih =>
    intro rs h u hu
    unfold processAll at h
    cases hp : processUrl cfg env k a with
    | error e => rw [hp] at h; exact absurd h (by simp)
    | ok o =>
      rw [hp] at h
      cases o with
      | none =>
        dsimp only at h
        rcases List.mem_cons.mp hu with rfl | hut
        · exact ⟨none, hp, by simp⟩
        · exact ih rs h u hut
      | some r0 =>
        dsimp only at h
        cases hrest : processAll cfg env k t with
        | error e => rw [hrest] at h; exact absurd h (by simp)
        | ok rsT =>
          rw [hrest] at h
          simp only [Except.ok.injEq] at h
          subst h
          rcases List.mem_cons.mp hu with rfl | hut
          · refine ⟨some r0, hp, fun r hr => ?_⟩
            cases hr
            exact List.mem_cons_self _ _
          · obtain ⟨o, hpu, ho⟩ := ih rsT hrest u hut
            exact ⟨o, hpu, fun r hr => List.mem_cons_of_mem _ (ho r hr)⟩

theorem processAll_sha (cfg : Config) (env : Env) (k : List String) :
    ∀ (links : List String) (rs : List Rec),
      processAll cfg env k links = .ok rs → ∀ r ∈ rs, r.sha ∉ k := by
  intro links
  induction links with
  | nil =>
    intro rs h r hr
    simp only [processAll, Except.ok.injEq] at h
    subst h
    exact absurd hr (by simp)
  | cons a t ih =>
    intro rs h r hr
    unfold processAll at h
    cases hp : processUrl cfg env k a with
    | error e => rw [hp] at h; exact absurd h (by simp)
    | ok o =>
      rw [hp] at h
      cases o with
      | none =>
        dsimp only at h
        exact ih rs h r hr
      | some r0 =>
        dsimp only at h
        cases hrest : processAll cfg env k t with
        | error e => rw [hrest] at h; exact absurd h (by simp)
        | ok rsT =>
          rw [hrest] at h
          simp only [Except.ok.injEq] at h
          subst h
          rcases List.mem_cons.mp hr with rfl | hrt
          · exact processUrl_ok_some cfg env k a r hp
          · exact ih rsT hrest r hrt

/-! ### Lemmas about the loaded store -/

theorem mem_map_fst_dictInsert (m : List (String × Rec)) (k : String)
    (v : Rec) (x : String) :
    x ∈ (dictInsert m k v).map (fun p => p.1) ↔
      x ∈ m.map (fun p => p.1) ∨ x = k := by
  unfold dictInsert
  by_cases hany : m.any (fun p => p.1 == k) = true
  · rw [if_pos hany]
    have hk : k ∈ m.map (fun p => p.1) := by
      rcases List.any_eq_true.mp hany with ⟨p, hp, hpk⟩
      have hp1 : p.1 = k := by simpa using hpk
      exact List.mem_map.mpr ⟨p, hp, hp1⟩
    have he : (m.map (fun p => if p.1 == k then (k, v) else p)).map
        (fun p => p.1) = m.map (fun p => p.1) := by
      rw [List.map_map]
      refine List.map_congr_left ?_
      intro p _
      by_cases hpk : p.1 == k
      · have hp1 : p.1 = k := by simpa using hpk
        simp only [Function.comp]
        rw [if_pos hpk]
        exact hp1.symm
      · simp only [Function.comp]
        rw [if_neg hpk]
    rw [he]
    constructor
    · exact Or.inl
    · rintro (hx | rfl)
      · exact hx
      · exact hk
  · rw [if_neg hany]
    simp

theorem mem_keys_foldl (x : String) :
    ∀ (recs : List Rec) (m : List (String × Rec)),
      x ∈ ((recs.foldl (fun acc r => dictInsert acc r.sha r) m).map
        (fun p => p.1)) ↔
        x ∈ m.map (fun p => p.1) ∨ x ∈ recs.map Rec.sha := by
  intro recs
  induction recs with
  | nil => intro m; simp
  | cons r t ih =>
    intro m
    rw [List.foldl_cons, ih (dictInsert m r.sha r), mem_map_fst_dictInsert]
    simp only [List.map_cons, List.mem_cons]
    tauto

theorem mem_storeKeys (sf : List Rec) (x : String) :
    x ∈ storeKeys sf ↔ x ∈ sf.map Rec.sha := by
  unfold storeKeys loadStore
  rw [mem_keys_foldl]
  simp

theorem dictInsert_snd_sha (m : List (String × Rec)) (k : String) (v : Rec)
    (hk : v.sha = k) (hm : ∀ p ∈ m, p.2.sha = p.1) :
    ∀ p ∈ dictInsert m k v, p.2.sha = p.1 := by
  intro p hp
  unfold dictInsert at hp
  by_cases hany : m.any (fun q => q.1 == k) = true
  · rw [if_pos hany] at hp
    rcases List.mem_map.mp hp with ⟨q, hq, hqe⟩
    by_cases hqk : q.1 == k
    · rw [if_pos hqk] at hqe
      rw [← hqe]
      exact hk
    · rw [if_neg hqk] at hqe
      rw [← hqe]
      exact hm q hq
  · rw [if_neg hany] at hp
    rcases List.mem_append.mp hp with hp | hp
    · exact hm p hp
    · have hpe : p = (k, v) := by simpa using hp
      rw [hpe]
      exact hk

theorem loadStore_snd_sha (sf : List Rec) :
    ∀ p ∈ loadStore sf, p.2.sha = p.1 := by
  unfold loadStore
  have haux : ∀ (recs : List Rec) (m : List (String × Rec)),
      (∀ p ∈ m, p.2.sha = p.1) →
      ∀ p ∈ recs.foldl (fun acc r => dictInsert acc r.sha r) m,
        p.2.sha = p.1 := by
    intro recs
    induction recs with
    | nil =>
      intro m hm
      simpa using hm
    | cons r t ih =>
      intro m hm
      rw [List.foldl_cons]
      exact ih (dictInsert m r.sha r) (dictInsert_snd_sha m r.sha r rfl hm)
  exact haux sf [] (by simp)

theorem storeKeys_eq_vals_sha (sf : List Rec) :
    storeKeys sf = (storeVals sf).map Rec.sha := by
  unfold storeKeys storeVals
  rw [List.map_map]
  refine List.map_congr_left ?_
  intro p hp
  exact (loadStore_snd_sha sf p hp).symm

theorem loadStore_of_nodup (sf : List Rec) (hnd : (sf.map Rec.sha).Nodup) :
    loadStore sf = sf.map (fun r => (r.sha, r)) := by
  unfold loadStore
  have haux : ∀ (recs : List Rec) (m : List (String × Rec)),
      (recs.map Rec.sha).Nodup →
      (∀ r ∈ recs, r.sha ∉ m.map (fun p => p.1)) →
      recs.foldl (fun acc r => dictInsert acc r.sha r) m
        = m ++ recs.map (fun r => (r.sha, r)) := by
    intro recs
    induction recs with
    | nil =>
      intro m _ _
      simp
    | cons r t ih =>
      intro m hnd2 hfresh
      have hfr : r.sha ∉ m.map (fun p => p.1) := hfresh r (by simp)
      have hnotany : ¬ (m.any (fun p => p.1 == r.sha) = true) := by
        intro hany
        rcases List.any_eq_true.mp hany with ⟨p, hp, hpk⟩
        have hp1 : p.1 = r.sha := by simpa using hpk
        exact hfr (List.mem_map.mpr ⟨p, hp, hp1⟩)
      have hins : dictInsert m r.sha r = m ++ [(r.sha, r)] := by
        unfold dictInsert
        rw [if_neg hnotany]
      rw [List.map_cons] at hnd2
      have hndt : (t.map Rec.sha).Nodup := hnd2.of_cons
      have hshaNe : ∀ x ∈ t, x.sha ≠ r.sha := by
        intro x hx he
        exact (List.nodup_cons.mp hnd2).1 (he ▸ List.mem_map.mpr ⟨x, hx, rfl⟩)
      have hfresh2 : ∀ x ∈ t, x.sha ∉ (m ++ [(r.sha, r)]).map (fun p => p.1) := by
        intro x hx
        rw [List.map_append, List.mem_append]
        rintro (hc | hc)
        · exact hfresh x (by simp [hx]) hc
        · have hc2 : x.sha = r.sha := by simpa using hc
          exact hshaNe x hx hc2
      rw [List.foldl_cons, hins, ih (m ++ [(r.sha, r)]) hndt hfresh2]
      simp
  exact haux sf [] hnd (by simp)

theorem storeVals_of_nodup (sf : List Rec) (hnd : (sf.map Rec.sha).Nodup) :
    storeVals sf = sf := by
  unfold storeVals
  rw [loadStore_of_nodup sf hnd, List.map_map]
  simp [Function.comp_def]

/-! ### Claim theorems -/

/-- C2 (amended): a second run against the same discovery result set and
unchanged content admits zero new records, performs no store write and
sends no notification.  (The claim's clause that every hash computed in the
second run is already in the store is false — see the counterexample — but
the zero-new-records conclusion still holds: candidates admitted in the
first run are skipped as duplicates, and all other candidates are
re-rejected by the same deterministic checks.) -/
theorem runCrawl_second_run (cfg : Config) (env : Env) (sf : List Rec)
    (links : List String) (res : RunResult)
    (h : runCrawl cfg env sf links = .ok res) :
    runCrawl cfg env (storeAfter sf res) links = .ok ⟨[], none, false⟩ := by
  unfold runCrawl at h
  cases hp : processAll cfg env (storeKeys sf) links with
  | error e => rw [hp] at h; exact absurd h (by simp)
  | ok rs =>
    rw [hp] at h
    dsimp only at h
    by_cases hemp : rs.isEmpty = true
    · rw [if_pos hemp] at h
      have hres : res = ⟨[], none, false⟩ := by simpa using h.symm
      subst hres
      show runCrawl cfg env sf links = .ok ⟨[], none, false⟩
      unfold runCrawl
      rw [hp]
      dsimp only
      rw [if_pos hemp]
    · rw [if_neg hemp] at h
      have hres : res = ⟨rs, some (storeVals sf ++ rs,
          (storeVals sf ++ rs).map recToRow), true⟩ := by
        simpa using h.symm
      subst hres
      show runCrawl cfg env (storeVals sf ++ rs) links = .ok ⟨[], none, false⟩
      have hsub : storeKeys sf ⊆ storeKeys (storeVals sf ++ rs) := by
        intro x hx
        rw [mem_storeKeys, List.map_append, List.mem_append]
        rw [storeKeys_eq_vals_sha] at hx
        exact Or.inl hx
      have hnew : ∀ r ∈ rs, Rec.sha r ∈ storeKeys (storeVals sf ++ rs) := by
        intro r hr
        rw [mem_storeKeys, List.map_append, List.mem_append]
        exact Or.inr (List.mem_map.mpr ⟨r, hr, rfl⟩)
      have hall : ∀ u ∈ links,
          processUrl cfg env (storeKeys (storeVals sf ++ rs)) u = .ok none := by
        intro u hu
        obtain ⟨o, hpu, ho⟩ :=
          processAll_mem cfg env (storeKeys sf) links rs hp u hu
        exact processUrl_skip_mono cfg env u _ _ o hpu hsub
          (fun r hro => hnew r (ho r hro))
      unfold runCrawl
      rw [processAll_nil_of cfg env _ links hall]
      rfl

/-- C2 (counterexample): a one-locator run whose candidate is rejected by
the page gate (`min_pages = 5`, one-page PDF).  The first run admits
nothing and persists nothing, so the store at the start of the second run
is still empty; yet the second run fetches the candidate again and computes
its content hash `"h"`, which is NOT in that store — refuting the claim
that every hash computed in the second run is already present in the store
loaded at its start. -/
theorem second_run_hash_cex :
    runCrawl cfgX envW [] ["a.pdf"] = .ok ⟨[], none, false⟩
    ∧ hashesComputed envW ["a.pdf"] = ["h"]
    ∧ "h" ∉ (storeAfter [] ⟨[], none, false⟩).map Rec.sha := by
  refine ⟨rfl, rfl, by simp [storeAfter]⟩

set_option maxRecDepth 10000 in
/-- C2 (witness): the second-run theorem applied to a concrete first run
that admitted one record. -/
theorem runCrawl_second_run_w :
    runCrawl cfgW envW (storeAfter [] resW) ["a.pdf"] = .ok ⟨[], none, false⟩ :=
  runCrawl_second_run cfgW envW [] ["a.pdf"] resW (by rfl)

/-- C1 (amended): across runs the content hash is the deduplication key —
every record admitted by a run has a content hash that was NOT in the store
loaded at the start of that run, so a locator whose fetched bytes hash to a
known value yields no new record.  Within a single run, however, the
known-hash set is never extended (see the counterexample), so two distinct
locators with byte-identical content fetched in the same run each yield a
record. -/
theorem dedup_cross_run (cfg : Config) (env : Env) (sf : List Rec)
    (links : List String) (res : RunResult)
    (h : runCrawl cfg env sf links = .ok res) :
    ∀ r ∈ res.newRecs, r.sha ∉ sf.map Rec.sha := by
  unfold runCrawl at h
  cases hp : processAll cfg env (storeKeys sf) links with
  | error e => rw [hp] at h; exact absurd h (by simp)
  | ok rs =>
    rw [hp] at h
    dsimp only at h
    by_cases hemp : rs.isEmpty = true
    · rw [if_pos hemp] at h
      have hres : res = ⟨[], none, false⟩ := by simpa using h.symm
      subst hres
      intro r hr
      exact absurd hr (by simp)
    · rw [if_neg hemp] at h
      have hres : res = ⟨rs, some (storeVals sf ++ rs,
          (storeVals sf ++ rs).map recToRow), true⟩ := by
        simpa using h.symm
      subst hres
      intro r hr
      have hns := processAll_sha cfg env (storeKeys sf) links rs hp r hr
      exact fun hx => hns ((mem_storeKeys sf r.sha).mpr hx)

set_option maxRecDepth 10000 in
/-- C1 (counterexample): two distinct locators `"a.pdf"` and `"b.pdf"`
whose fetches return the byte-identical content `[1]` (hash `"h"`), in the
same run over an empty store: BOTH are admitted and both are persisted, so
the durable store ends up with two `CandidateRecord`s for one content hash
— not exactly one as claimed.  The dedup check `dig in existing` consults
only the store loaded at run start and `existing` is never extended inside
the loop. -/
theorem same_run_duplicate_cex :
    (runCrawl cfgW envW [] ["a.pdf", "b.pdf"]).toOption.map
        (fun res => res.newRecs.map Rec.sha) = some ["h", "h"]
    ∧ (runCrawl cfgW envW [] ["a.pdf", "b.pdf"]).toOption.map
        (fun res => (storeAfter [] res).map Rec.sha) = some ["h", "h"] := by
  exact ⟨rfl, rfl⟩

set_option maxRecDepth 10000 in
/-- C1 (witness): the cross-run dedup theorem applied to a run over the
store `[recG]`; the admitted record's hash `"h"` is not among the store's
hashes. -/
theorem dedup_cross_run_w : rec0W.sha ∉ [recG].map Rec.sha :=
  dedup_cross_run cfgW envW [recG] ["a.pdf"] resWG (by rfl) rec0W
    (by simp [resWG])

/-- C3 (amended): a fetch failure skips the candidate, a PDF parse failure
skips the candidate, and a skipped candidate leaves the loop exactly where
it would be without that candidate — so fetch and extraction errors never
abort processing of the remaining candidates.  An embedding failure,
however, is NOT caught (`vec = embed(text)` is outside any try/except): it
propagates and aborts the whole run, so the claim's embedding clause fails
(see the counterexample). -/
theorem candidate_error_isolation (cfg : Config) (env : Env)
    (k : List String) (u : String) (rest : List String) (raw : List Nat)
    (c e : String) :
    (env.fetch u = none → processUrl cfg env k u = .ok none)
    ∧ (env.fetch u = some raw → raw ≠ [] → env.sha raw ∉ k →
        pyEndsWith u ".pdf" = true → env.parsePdf raw = Pdf.bad c →
        processUrl cfg env k u = .ok none)
    ∧ (processUrl cfg env k u = .ok none →
        processAll cfg env k (u :: rest) = processAll cfg env k rest)
    ∧ (processUrl cfg env k u = .error e →
        processAll cfg env k (u :: rest) = .error e) := by
  refine ⟨?_, ?_, ?_, ?_⟩
  · intro hf
    unfold processUrl
    rw [hf]
  · intro hf hraw hmem hpdf hbad
    unfold processUrl
    rw [hf]
    dsimp only
    rw [if_neg hraw, if_neg hmem]
    unfold processFresh
    have hext : extractStep env u raw = none := by
      unfold extractStep
      rw [if_pos hpdf, hbad]
      rfl
    rw [hext]
  · exact processAll_cons_none cfg env k u rest
  · exact processAll_cons_error cfg env k u rest e

/-- C3 (counterexample): a run where the first candidate reaches the
embedding step and the embedding model raises: the whole run aborts with
that error — the second candidate `"b.pdf"` is never processed and no
record is produced, refuting the claim that an embedding failure only
skips the one candidate. -/
theorem embed_error_aborts_cex :
    runCrawl cfgW envB [] ["a.pdf", "b.pdf"] = .error "boom" := by rfl

/-- C3 (witness): the isolation theorem applied at concrete inputs — a
failed fetch is skipped, an unreadable PDF is skipped, a skipped candidate
leaves the remaining candidates to be processed, and an embedding error
aborts the loop. -/
theorem candidate_error_isolation_w :
    processUrl cfgW envN [] "a.pdf" = .ok none
    ∧ processUrl cfgW envC [] "a.pdf" = .ok none
    ∧ processAll cfgW envC [] ["a.pdf", "b.pdf"]
        = processAll cfgW envC [] ["b.pdf"]
    ∧ processAll cfgW envB [] ["a.pdf", "b.pdf"] = .error "boom" := by
  have h1 := candidate_error_isolation cfgW envN [] "a.pdf" ["b.pdf"] [1] "X" "boom"
  have h2 := candidate_error_isolation cfgW envC [] "a.pdf" ["b.pdf"] [1] "X" "boom"
  have h3 := candidate_error_isolation cfgW envB [] "a.pdf" ["b.pdf"] [1] "X" "boom"
  have hskip : processUrl cfgW envC [] "a.pdf" = .ok none :=
    h2.2.1 rfl (by simp) (by simp) (by rfl) rfl
  exact ⟨h1.1 rfl, hskip, h2.2.2.1 hskip, h3.2.2.2 (by rfl)⟩

/-- C5 (confirmed): for a fixed extracted text, source locator (hence a
fixed derived year) and fixed page count, the admission gate is monotone in
the configuration thresholds — decreasing `min_pages` or `min_year` never
turns an admitted candidate into a rejected one. -/
theorem gate_monotone (text url : String) (pages : Nat)
    (mp mp2 my my2 : Nat) (hm : mp2 ≤ mp) (hy : my2 ≤ my)
    (h : gateAdmit mp my pages (yearOf text url) = true) :
    gateAdmit mp2 my2 pages (yearOf text url) = true := by
  unfold gateAdmit at h ⊢
  simp only [Bool.and_eq_true, Bool.not_eq_true', decide_eq_false_iff_not,
    not_lt] at h ⊢
  exact ⟨hm.trans h.1, hy.trans h.2⟩

/-- C5 (witness): the gate admits a 3-page candidate dated 2021 at
thresholds (2, 2000), and still admits it after lowering them to
(1, 1999). -/
theorem gate_monotone_w :
    gateAdmit 1 1999 3 (yearOf "report 2021" "a.pdf") = true :=
  gate_monotone "report 2021" "a.pdf" 3 2 1 2000 1999 (by decide) (by decide)
    (by decide)

/-- C6 (confirmed): whenever a run with a non-empty batch reports success,
the structured (JSON) representation and the tabular (CSV) rows are
written from the same `allrecs` list: the JSON list is exactly the
previously existing records followed by the new records in discovery
order, and the CSV rows are exactly that list projected row by row — the
two representations list the identical record set in append order.  (The
store is assumed to have pairwise distinct hashes, i.e. to be
well-formed; loading keys the records by hash.) -/
theorem persist_two_reps (cfg : Config) (env : Env) (sf : List Rec)
    (links : List String) (res : RunResult)
    (h : runCrawl cfg env sf links = .ok res) (hne : res.newRecs ≠ [])
    (hnd : (sf.map Rec.sha).Nodup) :
    res.persisted = some (sf ++ res.newRecs, (sf ++ res.newRecs).map recToRow)
      ∧ res.notified = true := by
  unfold runCrawl at h
  cases hp : processAll cfg env (storeKeys sf) links with
  | error e => rw [hp] at h; exact absurd h (by simp)
  | ok rs =>
    rw [hp] at h
    dsimp only at h
    by_cases hemp : rs.isEmpty = true
    · rw [if_pos hemp] at h
      have hres : res = ⟨[], none, false⟩ := by simpa using h.symm
      rw [hres] at hne
      exact absurd rfl hne
    · rw [if_neg hemp] at h
      have hres : res = ⟨rs, some (storeVals sf ++ rs,
          (storeVals sf ++ rs).map recToRow), true⟩ := by
        simpa using h.symm
      subst hres
      dsimp only
      rw [storeVals_of_nodup sf hnd]
      exact ⟨rfl, rfl⟩

set_option maxRecDepth 10000 in
/-- C6 (witness): the persistence theorem applied to a concrete run over
the one-record store `[recG]` that admits one new record. -/
theorem persist_two_reps_w :
    resWG.persisted = some ([recG] ++ resWG.newRecs,
      ([recG] ++ resWG.newRecs).map recToRow) ∧ resWG.notified = true :=
  persist_two_reps cfgW envW [recG] ["a.pdf"] resWG (by rfl)
    (by simp [resWG]) (by simp)

/-- C7 (confirmed): if the batch of newly admitted records is empty — for
example because every discovered locator is a duplicate of an existing
store entry — then no store write occurs and no notification is sent
(`if new:` guards both, and `email_digest` additionally returns early on
an empty list). -/
theorem empty_batch_no_write (cfg : Config) (env : Env) (sf : List Rec)
    (links : List String) (res : RunResult)
    (h : runCrawl cfg env sf links = .ok res) (h0 : res.newRecs = []) :
    res.persisted = none ∧ res.notified = false := by
  unfold runCrawl at h
  cases hp : processAll cfg env (storeKeys sf) links with
  | error e => rw [hp] at h; exact absurd h (by simp)
  | ok rs =>
    rw [hp] at h
    dsimp only at h
    by_cases hemp : rs.isEmpty = true
    · rw [if_pos hemp] at h
      have hres : res = ⟨[], none, false⟩ := by simpa using h.symm
      subst hres
      exact ⟨rfl, rfl⟩
    · rw [if_neg hemp] at h
      have hres : res = ⟨rs, some (storeVals sf ++ rs,
          (storeVals sf ++ rs).map recToRow), true⟩ := by
        simpa using h.symm
      subst hres
      rw [show (⟨rs, some (storeVals sf ++ rs,
          (storeVals sf ++ rs).map recToRow), true⟩ : RunResult).newRecs
        = rs from rfl] at h0
      subst h0
      exact absurd rfl hemp

/-- C7 (witness): a run where the only discovered locator is a duplicate
of the store entry `recH` (hash `"h"`): the batch is empty, nothing is
persisted, nothing is notified. -/
theorem empty_batch_no_write_w :
    (⟨[], none, false⟩ : RunResult).persisted = none ∧
      (⟨[], none, false⟩ : RunResult).notified = false :=
  empty_batch_no_write cfgW envW [recH] ["a.pdf"] ⟨[], none, false⟩
    (by rfl) rfl

/-- C8 (amended): if the discovery collaborator returns zero locators, the
run is NOT fatal: the main loop body never executes, the batch stays
empty, and the run completes normally (exit code 0, printing a
no-new-records message) with no store write and no notification. -/
theorem empty_discovery_normal (cfg : Config) (env : Env) (sf : List Rec) :
    runCrawl cfg env sf [] = .ok ⟨[], none, false⟩ := rfl

/-- C8 (counterexample): a concrete run with zero locators returns a
normal (`Except.ok`) result — it does not terminate with an error as the
claim asserts. -/
theorem empty_discovery_not_fatal_cex :
    runCrawl cfgW envW [] [] = .ok ⟨[], none, false⟩ := rfl

/-- C9 (confirmed): PDF extraction concatenates the text of at most the
first `kk` pages (the call site uses the Python default `kk = 5`) yet
returns the page count of the WHOLE document; an unparsable document makes
`extract_pdf` fail with an error string carrying the underlying
exception's class name, and in the main loop that failure is caught — the
candidate is skipped and the remaining locators are processed exactly as
if it had not been there. -/
theorem extract_pdf_spec (pgs : List String) (c : String) (kk : Nat)
    (cfg : Config) (env : Env) (k : List String) (u : String)
    (rest : List String) (raw : List Nat)
    (hf : env.fetch u = some raw) (hraw : raw ≠ []) (hmem : env.sha raw ∉ k)
    (hpdf : pyEndsWith u ".pdf" = true) (hbad : env.parsePdf raw = Pdf.bad c) :
    extract_pdf (Pdf.ok pgs) kk
        = .ok (String.intercalate "\n" (pgs.take kk), pgs.length)
    ∧ extract_pdf (Pdf.bad c) 5 = .error ("Unreadable PDF (" ++ c ++ ")")
    ∧ processAll cfg env k (u :: rest) = processAll cfg env k rest := by
  refine ⟨rfl, rfl, ?_⟩
  refine processAll_cons_none cfg env k u rest ?_
  unfold processUrl
  rw [hf]
  dsimp only
  rw [if_neg hraw, if_neg hmem]
  unfold processFresh
  have hext : extractStep env u raw = none := by
    unfold extractStep
    rw [if_pos hpdf, hbad]
    rfl
  rw [hext]

/-- C9 (witness): a six-page readable document yields the first five pages
of text with total page count 6; an unreadable document with exception
class `"X"` yields the tagged error and is skipped, leaving the rest of
the run unchanged. -/
theorem extract_pdf_spec_w :
    extract_pdf (Pdf.ok ["p1", "p2", "p3", "p4", "p5", "p6"]) 5
        = .ok (String.intercalate "\n"
            (["p1", "p2", "p3", "p4", "p5", "p6"].take 5), 6)
    ∧ extract_pdf (Pdf.bad "X") 5 = .error ("Unreadable PDF (" ++ "X" ++ ")")
    ∧ processAll cfgW envC [] ["a.pdf", "b.pdf"]
        = processAll cfgW envC [] ["b.pdf"] :=
  extract_pdf_spec ["p1", "p2", "p3", "p4", "p5", "p6"] "X" 5 cfgW envC []
    "a.pdf" ["b.pdf"] [1] rfl (by simp) (by simp) (by rfl) rfl

/-- C10 (confirmed): a non-PDF candidate gets the estimated page count
`len(text.split()) // 500` (integer floor); a document with fewer than 500
extracted words therefore gets page count 0 and, whenever
`min_pages ≥ 1`, is rejected by the page gate — the candidate is skipped. -/
theorem html_page_floor (cfg : Config) (env : Env) (k : List String)
    (u : String) (raw : List Nat) (t0 : String)
    (hf : env.fetch u = some raw) (hraw : raw ≠ []) (hmem : env.sha raw ∉ k)
    (hpdf : pyEndsWith u ".pdf" = false)
    (hwc : (pySplit (env.extractHtml raw)).length < 500)
    (hmp : 1 ≤ cfg.minPages) :
    htmlPages t0 = (pySplit t0).length / 500
    ∧ htmlPages (env.extractHtml raw) = 0
    ∧ processUrl cfg env k u = .ok none := by
  have hz : htmlPages (env.extractHtml raw) = 0 := Nat.div_eq_of_lt hwc
  refine ⟨rfl, hz, ?_⟩
  unfold processUrl
  rw [hf]
  dsimp only
  rw [if_neg hraw, if_neg hmem]
  unfold processFresh
  have hext : extractStep env u raw
      = some (env.extractHtml raw, htmlPages (env.extractHtml raw)) := by
    unfold extractStep
    rw [if_neg (by rw [hpdf]; exact Bool.false_ne_true)]
  rw [hext]
  dsimp only
  have hg : ¬ (gateAdmit cfg.minPages cfg.minYear
      (htmlPages (env.extractHtml raw))
      (yearOf (env.extractHtml raw) u) = true) := by
    intro hgt
    rw [hz] at hgt
    unfold gateAdmit at hgt
    simp only [Bool.and_eq_true, Bool.not_eq_true', decide_eq_false_iff_not,
      not_lt] at hgt
    have hle := hgt.1
    omega
  rw [if_neg hg]

/-- C10 (witness): a three-word HTML document gets page count 0 and is
skipped at `min_pages = 1`. -/
theorem html_page_floor_w :
    htmlPages "x y" = (pySplit "x y").length / 500
    ∧ htmlPages (envH.extractHtml [1]) = 0
    ∧ processUrl cfgW envH [] "a.html" = .ok none :=
  html_page_floor cfgW envH [] "a.html" [1] "x y" rfl (by simp) (by simp)
    (by rfl) (by decide) (by decide)
